import Mathlib

/-!
# Verification of the ByteHunter concurrent file-search pipeline

Shallow embedding of `src/main.py`: a concurrent, case-insensitive
substring search over a file tree that records match locations and
writes a per-file summary report.

Modelling choices:
* A filesystem path is a list of components (`FPath`); `pathlib`'s
  `Path.is_relative_to` is the component-prefix test and `Path.suffix`
  is re-implemented from `pathlib`'s rule (last dot of the final
  component, not at position 0 and not the last character).
* A file on disk is a `SimFile`: the maximal character prefix that
  decodes under the configured encoding, whether the whole byte content
  decodes, and whether the file can be opened at all.  Python's text
  iteration yields the complete (terminator-ended) lines that were
  decoded before a decode/read failure; the failing partial line is
  never yielded.
* `re.finditer(term, line, re.IGNORECASE)` scans left to right and
  yields non-overlapping matches; after a match at `p` the scan resumes
  at `p + len(term)` (at `p + 1` for a zero-width match).  The
  configured term `"whatever"` contains no regex metacharacters, so the
  regex search coincides with literal case-folded substring search,
  which is what `finditer` below implements.  Case folding is modelled
  by `Char.toLower`, which agrees with `re.IGNORECASE` on ASCII.
* The thread pool of the scan phase is modelled by running the per-file
  tasks in an arbitrary order (a permutation of the file list): each
  `search_file` call is independent, and the shared dictionary update
  is a single critical section under `lock`, so any concurrent
  execution is equivalent to some sequential interleaving of whole
  `record` steps.
* Python's `dict` preserves insertion order and overwrites in place;
  `dictInsert` models this on an association list.
-/

namespace ByteHunter

/-- A match record `(line number, start offset, end offset)`:
1-based line, 0-based character offsets, as built at
`src/main.py:76-77`. -/
abbrev MatchRecord := Nat × Nat × Nat

/-- A filesystem path as its list of components (`pathlib.PurePath.parts`
for a relative path). -/
abbrev FPath := List String

/-- `str(path)`: components joined by `/`. -/
def pathStr (p : FPath) : String :=
  String.intercalate "/" p

/-- `self.is_relative_to(other)` for relative paths: `other`'s
components are a prefix of `self`'s. -/
def isRelativeTo (p q : FPath) : Bool :=
  decide (q <+: p)

/-- `pathlib.PurePath.suffix` of a single name: the substring from the
last `.` onward, provided that dot is neither the first nor the last
character of the name; otherwise the empty string. -/
def nameSuffix (name : String) : String :=
  match name.toList.reverse.indexOf? '.' with
  | none => ""
  | some k =>
      let i := name.length - 1 - k
      if 0 < i ∧ i < name.length - 1 then
        ⟨(name.toList).drop i⟩
      else ""

/-- `Path.suffix`: the suffix of the final component (empty for the
empty path). -/
def pathSuffix (p : FPath) : String :=
  match p.getLast? with
  | none => ""
  | some name => nameSuffix name

/-- The run configuration constants of `src/main.py:10-23` that
`is_file_searchable` reads (`EXCLUDE_DIRECTORIES`,
`INCLUDE_FILE_TYPES`, `EXCLUDE_FILE_TYPES`). -/
structure SearchConfig where
  excludeDirs : List FPath
  includeTypes : List String
  excludeTypes : List String
  deriving Repr, DecidableEq

/-- The default configuration of `src/main.py`: no exclusions, all
file types. -/
def defaultConfig : SearchConfig :=
  { excludeDirs := [], includeTypes := [], excludeTypes := [] }

/-- A file's content as seen through the configured text decoding:
`goodText` is the maximal character prefix that decodes, `decodable`
says whether the whole byte content decodes, `openable` whether
opening succeeds at all. -/
structure SimFile where
  openable : Bool
  goodText : List Char
  decodable : Bool
  deriving Repr, DecidableEq

/-- Split a character stream at `'\n'` terminators into segments; the
result always has one more segment than there are terminators, the
last segment being the (possibly empty) text after the final
terminator. -/
def splitSegs : List Char → List (List Char)
  | [] => [[]]
  | c :: cs =>
      let r := splitSegs cs
      if c = '\n' then [] :: r
      else
        match r with
        | [] => [[c]]
        | s :: ss => (c :: s) :: ss

/-- The lines Python's text iteration yields for a fully decodable
file: every terminator-ended segment, plus the trailing segment when
it is non-empty (terminators stripped; a term without `'\n'` matches
at the same offsets whether or not the terminator is kept). -/
def allLines (text : List Char) : List String :=
  let ss := splitSegs text
  let body := ss.dropLast.map (fun l => (⟨l⟩ : String))
  match ss.getLast? with
  | some last => if last.isEmpty then body else body ++ [(⟨last⟩ : String)]
  | none => body

/-- The lines yielded before a decode failure: only the complete
(terminator-ended) lines of the decodable prefix; the partial line in
which decoding fails is never yielded. -/
def completeLines (text : List Char) : List String :=
  (splitSegs text).dropLast.map (fun l => (⟨l⟩ : String))

/-- Reading a file line by line (`for line in file` at
`src/main.py:70`): the lines obtained, and whether a read/decode
error interrupted the iteration (caught at `src/main.py:78`). -/
def readLinesOf (f : SimFile) : List String × Bool :=
  if !f.openable then ([], true)
  else if f.decodable then (allLines f.goodText, false)
  else (completeLines f.goodText, true)

/-- Case-folded character-by-character comparison of `term` against
the length-`term.length` substring of `line` starting at `p`
(`re.IGNORECASE` literal semantics; `Char.toLower` agrees with it on
ASCII). -/
def matchesAt (term line : List Char) (p : Nat) : Bool :=
  decide (p + term.length ≤ line.length) &&
    ((line.drop p).take term.length).map Char.toLower == term.map Char.toLower

/-- One step bound: the scan pointer of `re.finditer` advances by at
least one per step, so `line.length + 1` steps suffice from position
`0`; the fuel argument makes that explicit. -/
def finditerAux (term line : List Char) : Nat → Nat → List Nat
  | _, 0 => []
  | p, fuel + 1 =>
      if p + term.length ≤ line.length then
        if matchesAt term line p then
          p :: finditerAux term line (p + max term.length 1) fuel
        else
          finditerAux term line (p + 1) fuel
      else []

/-- `[match.start() for match in re.finditer(term, line, re.IGNORECASE)]`
(`src/main.py:72-73`) for a term free of regex metacharacters:
left-to-right, non-overlapping, case-insensitive literal occurrences;
after a match at `p` the scan resumes at `p + term.length`. -/
def finditer (term line : List Char) : List Nat :=
  finditerAux term line 0 (line.length + 1)

/-- String-level wrapper for `finditer`. -/
def finditerStr (term line : String) : List Nat :=
  finditer term.toList line.toList

/-- The match records one line contributes
(`src/main.py:74-77`): `(line_number, pos, pos + len(SEARCH_TERM))`
for each occurrence start. -/
def searchLine (term : String) (lineNo : Nat) (line : String) : List MatchRecord :=
  (finditerStr term line).map (fun p => (lineNo, p, p + term.length))

/-- The match list `local_results` accumulated over a list of lines,
line numbers starting at 1 (`src/main.py:66-77`). -/
def searchLines (term : String) (lines : List String) : List MatchRecord :=
  (lines.enum.map (fun il => searchLine term (il.1 + 1) il.2)).flatten

/-- `results_dict` is a Python `dict`: insertion order preserved,
assignment to an existing key overwrites in place. -/
def dictInsert {α : Type} : List (String × α) → String → α → List (String × α)
  | [], k, v => [(k, v)]
  | (k', v') :: rest, k, v =>
      if k' = k then (k, v) :: rest else (k', v') :: dictInsert rest k v

/-- `results_dict[k]` as an option. -/
def dictLookup {α : Type} : List (String × α) → String → Option α
  | [], _ => none
  | (k', v') :: rest, k => if k' = k then some v' else dictLookup rest k

/-- The keys of the dictionary in insertion order. -/
def dictKeys {α : Type} (d : List (String × α)) : List String :=
  d.map Prod.fst

/-- The `ResultStore.record` step (`src/main.py:81-83`): under the
lock, store `local_results` in `results_dict` keyed by
`str(file_path)` — only when non-empty. -/
def record (d : List (String × List MatchRecord)) (path : FPath)
    (ms : List MatchRecord) : List (String × List MatchRecord) :=
  if ms.isEmpty then d else dictInsert d (pathStr path) ms

/-- The `local_results` a scan of file `f` produces
(`src/main.py:66-79`): the matches over the lines that could be read;
a read error is caught and simply ends the iteration early. -/
def scanResult (term : String) (f : SimFile) : List MatchRecord :=
  searchLines term (readLinesOf f).1

/-- `search_file` (`src/main.py:59-83`): compute `local_results`, then
record them. -/
def search_file (term : String) (path : FPath) (f : SimFile)
    (d : List (String × List MatchRecord)) : List (String × List MatchRecord) :=
  record d path (scanResult term f)

/-- `is_file_searchable` (`src/main.py:30-56`): reject paths under an
excluded directory, then apply the include/exclude extension rules,
then sniff the file: `file.read(1024)` must succeed.  The sniff
succeeds when the whole file decodes, or when at least `sniffLimit`
characters decode before the first bad byte (the buffered text reader
may decode ahead of the 1024 requested characters in 8192-byte
chunks; `sniffLimit` is the request size, and every concrete file
below puts its bad bytes far beyond either bound). -/
def sniffLimit : Nat := 1024

/-- Whether `file.read(1024)` succeeds on `f`. -/
def sniffOk (f : SimFile) : Bool :=
  f.openable && (f.decodable || decide (sniffLimit ≤ f.goodText.length))

/-- `is_file_searchable` proper. -/
def is_file_searchable (cfg : SearchConfig) (path : FPath) (f : SimFile) : Bool :=
  if cfg.excludeDirs.any (fun e => isRelativeTo path e) then false
  else if !cfg.includeTypes.isEmpty && !cfg.includeTypes.contains (pathSuffix path) then false
  else if cfg.excludeTypes.contains (pathSuffix path) then false
  else sniffOk f

/-- The filter phase of `main` (`src/main.py:129-137`): the searchable
subset of the collected candidates (order is completion order; the
membership-based claims below do not depend on it). -/
def filterPhase (cfg : SearchConfig) (content : FPath → SimFile)
    (candidates : List FPath) : List FPath :=
  candidates.filter (fun p => is_file_searchable cfg p (content p))

/-- The scan phase of `main` (`src/main.py:141-142`): every searchable
file is scanned once and recorded into `results_dict`; the list order
is the order in which the workers' `record` critical sections happen
to run. -/
def scanPhase (term : String) (content : FPath → SimFile)
    (paths : List FPath) (d : List (String × List MatchRecord)) :
    List (String × List MatchRecord) :=
  paths.foldl (fun d p => search_file term p (content p) d) d

/-- A report row (`write_to_csv`, `src/main.py:95-100`): file path,
occurrence count = number of match records, and the match list. -/
abbrev ReportRow := String × Nat × List MatchRecord

/-- `write_to_csv` (`src/main.py:86-100`): one row per `results_dict`
entry, in dictionary order. -/
def csvRows (d : List (String × List MatchRecord)) : List ReportRow :=
  d.map (fun e => (e.1, e.2.length, e.2))

/-- The whole pipeline of `main` (`src/main.py:119-145`) on a fixed
snapshot of the filesystem: filter, scan into an initially empty
dictionary, report. -/
def runPipeline (cfg : SearchConfig) (term : String)
    (content : FPath → SimFile) (candidates : List FPath) : List ReportRow :=
  csvRows (scanPhase term content (filterPhase cfg content candidates) [])

/-- A file whose bytes are `"whatever\n"`, then 8300 `'a'` bytes, then
a byte sequence invalid for UTF-8.  The invalid bytes lie beyond the
sniffed prefix and even beyond the text reader's first 8192-byte
chunk, so `file.read(1024)` succeeds; during the scan the line
`"whatever"` is decoded and yielded before the decode error. -/
def badFile : SimFile :=
  { openable := true
    goodText := "whatever".toList ++ '\n' :: List.replicate 8300 'a'
    decodable := false }

/-- A filesystem consisting of `badFile` at every path. -/
def badContent : FPath → SimFile := fun _ => badFile

/-! ## Dictionary lemmas -/

theorem dictInsert_cons_eq {α : Type} (rest : List (String × α)) (k₀ : String)
    (v₀ : α) (k : String) (v : α) (h : k₀ = k) :
    dictInsert ((k₀, v₀) :: rest) k v = (k, v) :: rest := by
  simp [dictInsert, h]

theorem dictInsert_cons_ne {α : Type} (rest : List (String × α)) (k₀ : String)
    (v₀ : α) (k : String) (v : α) (h : ¬k₀ = k) :
    dictInsert ((k₀, v₀) :: rest) k v = (k₀, v₀) :: dictInsert rest k v := by
  simp [dictInsert, h]

theorem dictLookup_cons {α : Type} (k₀ : String) (v₀ : α)
    (rest : List (String × α)) (k : String) :
    dictLookup ((k₀, v₀) :: rest) k = if k₀ = k then some v₀ else dictLookup rest k :=
  rfl

theorem dictLookup_cons_eq {α : Type} {k₀ k : String} {v₀ : α}
    {rest : List (String × α)} (h : k₀ = k) :
    dictLookup ((k₀, v₀) :: rest) k = some v₀ := by
  rw [dictLookup_cons, if_pos h]

theorem dictLookup_cons_ne {α : Type} {k₀ k : String} {v₀ : α}
    {rest : List (String × α)} (h : ¬k₀ = k) :
    dictLookup ((k₀, v₀) :: rest) k = dictLookup rest k := by
  rw [dictLookup_cons, if_neg h]

theorem dictLookup_dictInsert {α : Type} (d : List (String × α)) (k k' : String)
    (v : α) :
    dictLookup (dictInsert d k v) k' = if k' = k then some v else dictLookup d k' := by
  induction d with
  | nil =>
    by_cases h : k' = k
    · subst h
      simp [dictInsert, dictLookup]
    · simp [dictInsert, dictLookup, h, (Ne.symm h : k ≠ k')]
  | cons e rest ih =>
    obtain ⟨k₀, v₀⟩ := e
    by_cases h : k₀ = k
    · rw [dictInsert_cons_eq rest k₀ v₀ k v h]
      subst h
      by_cases h' : k₀ = k'
      · subst h'
        rw [dictLookup_cons_eq rfl, if_pos rfl]
      · rw [dictLookup_cons_ne h', if_neg (fun hh : k' = k₀ => h' hh.symm),
          dictLookup_cons_ne h']
    · rw [dictInsert_cons_ne rest k₀ v₀ k v h]
      by_cases h' : k₀ = k'
      · subst h'
        rw [dictLookup_cons_eq rfl, if_neg h, dictLookup_cons_eq rfl]
      · rw [dictLookup_cons_ne h', ih, dictLookup_cons_ne h']

theorem mem_dictInsert {α : Type} (d : List (String × α)) (k : String) (v : α)
    (e : String × α) (he : e ∈ dictInsert d k v) : e = (k, v) ∨ e ∈ d := by
  induction d with
  | nil => simpa [dictInsert] using he
  | cons e₀ rest ih =>
    obtain ⟨k₀, v₀⟩ := e₀
    by_cases h : k₀ = k
    · rw [dictInsert_cons_eq rest k₀ v₀ k v h] at he
      rcases List.mem_cons.mp he with he | he
      · exact Or.inl he
      · exact Or.inr (List.mem_cons_of_mem _ he)
    · rw [dictInsert_cons_ne rest k₀ v₀ k v h] at he
      rcases List.mem_cons.mp he with he | he
      · exact Or.inr (by simp [he])
      · rcases ih he with h' | h'
        · exact Or.inl h'
        · exact Or.inr (List.mem_cons_of_mem _ h')

theorem mem_dictKeys_dictInsert {α : Type} (d : List (String × α)) (k k' : String)
    (v : α) : k' ∈ dictKeys (dictInsert d k v) ↔ k' = k ∨ k' ∈ dictKeys d := by
  induction d with
  | nil => simp [dictInsert, dictKeys]
  | cons e rest ih =>
    obtain ⟨k₀, v₀⟩ := e
    by_cases h : k₀ = k
    · rw [dictInsert_cons_eq rest k₀ v₀ k v h]
      subst h
      simp only [dictKeys, List.map_cons, List.mem_cons]
      tauto
    · rw [dictInsert_cons_ne rest k₀ v₀ k v h]
      simp only [dictKeys, List.map_cons, List.mem_cons]
      rw [show List.map Prod.fst (dictInsert rest k v) = dictKeys (dictInsert rest k v) from rfl]
      rw [ih]
      tauto

theorem dictKeys_dictInsert_nodup {α : Type} (d : List (String × α)) (k : String)
    (v : α) (hd : (dictKeys d).Nodup) : (dictKeys (dictInsert d k v)).Nodup := by
  induction d with
  | nil => simp [dictInsert, dictKeys]
  | cons e rest ih =>
    obtain ⟨k₀, v₀⟩ := e
    simp only [dictKeys, List.map_cons, List.nodup_cons] at hd
    by_cases h : k₀ = k
    · rw [dictInsert_cons_eq rest k₀ v₀ k v h]
      simp only [dictKeys, List.map_cons, List.nodup_cons]
      exact ⟨h ▸ hd.1, hd.2⟩
    · rw [dictInsert_cons_ne rest k₀ v₀ k v h]
      simp only [dictKeys, List.map_cons, List.nodup_cons]
      refine ⟨?_, ih hd.2⟩
      intro hm
      rcases (mem_dictKeys_dictInsert rest k k₀ v).mp hm with hm | hm
      · exact h hm
      · exact hd.1 hm

theorem dictLookup_isSome_of_mem {α : Type} (d : List (String × α))
    (e : String × α) (he : e ∈ d) : (dictLookup d e.1).isSome := by
  induction d with
  | nil => simp at he
  | cons e₀ rest ih =>
    obtain ⟨k₀, v₀⟩ := e₀
    rw [dictLookup_cons]
    rcases List.mem_cons.mp he with h | h
    · subst h
      simp
    · by_cases hk : k₀ = e.1
      · simp [hk]
      · simp [hk, ih h]

theorem mem_dict_iff_dictLookup {α : Type} (d : List (String × α)) (k : String)
    (v : α) (hd : (dictKeys d).Nodup) : (k, v) ∈ d ↔ dictLookup d k = some v := by
  induction d with
  | nil => simp [dictLookup]
  | cons e₀ rest ih =>
    obtain ⟨k₀, v₀⟩ := e₀
    simp only [dictKeys, List.map_cons, List.nodup_cons] at hd
    by_cases hk : k₀ = k
    · subst hk
      have hnot : (k₀, v) ∉ rest :=
        fun hmem => hd.1 (List.mem_map_of_mem Prod.fst hmem)
      rw [dictLookup_cons_eq rfl]
      simp only [List.mem_cons, Prod.mk.injEq, true_and, Option.some.injEq]
      constructor
      · rintro (h | h)
        · exact h.symm
        · exact absurd h hnot
      · intro h
        exact Or.inl h.symm
    · rw [dictLookup_cons_ne hk]
      simp only [List.mem_cons, Prod.mk.injEq]
      rw [← ih hd.2]
      constructor
      · rintro (⟨h1, _⟩ | h)
        · exact absurd h1.symm hk
        · exact h
      · exact fun h => Or.inr h

theorem dictInsert_idem {α : Type} (d : List (String × α)) (k : String) (v : α) :
    dictInsert (dictInsert d k v) k v = dictInsert d k v := by
  induction d with
  | nil => simp [dictInsert]
  | cons e rest ih =>
    obtain ⟨k₀, v₀⟩ := e
    by_cases h : k₀ = k
    · rw [dictInsert_cons_eq rest k₀ v₀ k v h, dictInsert_cons_eq rest k v k v rfl]
    · rw [dictInsert_cons_ne rest k₀ v₀ k v h, dictInsert_cons_ne _ k₀ v₀ k v h, ih]

/-! ## Scan-phase lemmas -/

theorem scanPhase_cons (term : String) (content : FPath → SimFile) (p : FPath)
    (l : List FPath) (d : List (String × List MatchRecord)) :
    scanPhase term content (p :: l) d =
      scanPhase term content l (search_file term p (content p) d) :=
  rfl

theorem scanPhase_nil (term : String) (content : FPath → SimFile)
    (d : List (String × List MatchRecord)) :
    scanPhase term content [] d = d :=
  rfl

theorem search_file_lookup (term : String) (p : FPath) (f : SimFile)
    (d : List (String × List MatchRecord)) (k : String) :
    dictLookup (search_file term p f d) k =
      if scanResult term f ≠ [] ∧ k = pathStr p then some (scanResult term f)
      else dictLookup d k := by
  unfold search_file record
  by_cases hres : (scanResult term f).isEmpty
  · rw [if_pos hres]
    rw [if_neg ?_]
    rintro ⟨hne, _⟩
    exact hne (List.isEmpty_iff.mp hres)
  · rw [if_neg hres, dictLookup_dictInsert]
    by_cases hk : k = pathStr p
    · rw [if_pos hk, if_pos ⟨fun he => hres (List.isEmpty_iff.mpr he), hk⟩]
    · rw [if_neg hk, if_neg (fun hc => hk hc.2)]

theorem scanPhase_lookup_of_empty (term : String) (content : FPath → SimFile) :
    ∀ (l : List FPath) (d : List (String × List MatchRecord)) (k : String),
      (∀ q ∈ l, pathStr q = k → scanResult term (content q) = []) →
      dictLookup (scanPhase term content l d) k = dictLookup d k := by
  intro l
  induction l with
  | nil => intro d k _; rfl
  | cons p l ih =>
    intro d k h
    rw [scanPhase_cons,
      ih _ _ (fun q hq => h q (List.mem_cons_of_mem _ hq)),
      search_file_lookup]
    rw [if_neg ?_]
    rintro ⟨hne, hk⟩
    exact hne (h p (List.mem_cons_self _ _) hk.symm)

theorem scanPhase_lookup_of_hit (term : String) (content : FPath → SimFile) :
    ∀ (l : List FPath) (d : List (String × List MatchRecord)) (k : String),
      (∃ q ∈ l, pathStr q = k ∧ scanResult term (content q) ≠ []) →
      ∃ q, q ∈ l ∧ pathStr q = k ∧ scanResult term (content q) ≠ [] ∧
        dictLookup (scanPhase term content l d) k = some (scanResult term (content q)) := by
  intro l
  induction l with
  | nil => rintro d k ⟨q, hq, -⟩; simp at hq
  | cons p l ih =>
    rintro d k ⟨q, hq, hk, hne⟩
    by_cases hl : ∃ q ∈ l, pathStr q = k ∧ scanResult term (content q) ≠ []
    · obtain ⟨q', hq', hk', hne', hlook⟩ :=
        ih (search_file term p (content p) d) k hl
      exact ⟨q', List.mem_cons_of_mem _ hq', hk', hne', by
        rw [scanPhase_cons]; exact hlook⟩
    · have hqp : q = p := by
        rcases List.mem_cons.mp hq with h | h
        · exact h
        · exact absurd ⟨q, h, hk, hne⟩ hl
      subst hqp
      refine ⟨q, List.mem_cons_self _ _, hk, hne, ?_⟩
      rw [scanPhase_cons,
        scanPhase_lookup_of_empty term content l _ k ?_,
        search_file_lookup, if_pos ⟨hne, hk.symm⟩]
      intro r hr hrk
      by_contra hrne
      exact hl ⟨r, hr, hrk, hrne⟩

theorem scanPhase_keys_nodup (term : String) (content : FPath → SimFile) :
    ∀ (l : List FPath) (d : List (String × List MatchRecord)),
      (dictKeys d).Nodup → (dictKeys (scanPhase term content l d)).Nodup := by
  intro l
  induction l with
  | nil => intro d hd; exact hd
  | cons p l ih =>
    intro d hd
    rw [scanPhase_cons]
    refine ih _ ?_
    unfold search_file record
    by_cases hres : (scanResult term (content p)).isEmpty
    · rw [if_pos hres]; exact hd
    · rw [if_neg hres]
      exact dictKeys_dictInsert_nodup d _ _ hd

theorem scanPhase_values_ne_nil (term : String) (content : FPath → SimFile) :
    ∀ (l : List FPath) (d : List (String × List MatchRecord)),
      (∀ e ∈ d, e.2 ≠ []) → ∀ e ∈ scanPhase term content l d, e.2 ≠ [] := by
  intro l
  induction l with
  | nil => intro d hd; exact hd
  | cons p l ih =>
    intro d hd
    rw [scanPhase_cons]
    refine ih _ ?_
    intro e he
    unfold search_file record at he
    by_cases hres : (scanResult term (content p)).isEmpty
    · rw [if_pos hres] at he
      exact hd e he
    · rw [if_neg hres] at he
      rcases mem_dictInsert _ _ _ _ he with h | h
      · rw [h]
        exact fun hc => hres (List.isEmpty_iff.mpr hc)
      · exact hd e h

/-! ## Scanner lemmas -/

theorem finditerAux_sound (term line : List Char) :
    ∀ (fuel p : Nat), ∀ q ∈ finditerAux term line p fuel,
      p ≤ q ∧ matchesAt term line q = true := by
  intro fuel
  induction fuel with
  | zero => intro p q hq; simp [finditerAux] at hq
  | succ fuel ih =>
    intro p q hq
    unfold finditerAux at hq
    by_cases hrange : p + term.length ≤ line.length
    · rw [if_pos hrange] at hq
      by_cases hm : matchesAt term line p
      · rw [if_pos hm] at hq
        rcases List.mem_cons.mp hq with h | h
        · exact ⟨h ▸ Nat.le_refl q, h ▸ hm⟩
        · obtain ⟨hle, hmm⟩ := ih _ q h
          exact ⟨Nat.le_trans (Nat.le_add_right p _) hle, hmm⟩
      · rw [if_neg hm] at hq
        obtain ⟨hle, hmm⟩ := ih _ q hq
        exact ⟨Nat.le_trans (Nat.le_add_right p 1) hle, hmm⟩
    · rw [if_neg hrange] at hq
      simp at hq

theorem finditerAux_chain (term line : List Char) :
    ∀ (fuel p : Nat),
      (finditerAux term line p fuel).Chain'
        (fun a b => a + max term.length 1 ≤ b) := by
  intro fuel
  induction fuel with
  | zero => intro p; simp [finditerAux]
  | succ fuel ih =>
    intro p
    unfold finditerAux
    by_cases hrange : p + term.length ≤ line.length
    · rw [if_pos hrange]
      by_cases hm : matchesAt term line p
      · rw [if_pos hm]
        rw [List.chain'_cons']
        refine ⟨?_, ih _⟩
        intro b hb
        have hmem : b ∈ finditerAux term line (p + max term.length 1) fuel :=
          List.mem_of_mem_head? hb
        exact (finditerAux_sound term line fuel _ b hmem).1
      · rw [if_neg hm]
        exact ih _
    · rw [if_neg hrange]
      simp

theorem finditer_sound (term line : List Char) (q : Nat)
    (hq : q ∈ finditer term line) : matchesAt term line q = true :=
  (finditerAux_sound term line _ 0 q hq).2

theorem finditer_chain (term line : List Char) :
    (finditer term line).Chain' (fun a b => a + max term.length 1 ≤ b) :=
  finditerAux_chain term line _ 0

theorem searchLines_shape (term : String) (lines : List String) (r : MatchRecord)
    (hr : r ∈ searchLines term lines) :
    ∃ n line p, line ∈ lines ∧ r = (n + 1, p, p + term.length) ∧
      p ∈ finditerStr term line := by
  unfold searchLines at hr
  rw [List.mem_flatten] at hr
  obtain ⟨L, hL, hrL⟩ := hr
  rw [List.mem_map] at hL
  obtain ⟨il, hil, hLdef⟩ := hL
  subst hLdef
  unfold searchLine at hrL
  rw [List.mem_map] at hrL
  obtain ⟨p, hp, hrdef⟩ := hrL
  exact ⟨il.1, il.2, p, List.snd_mem_of_mem_enum hil, hrdef.symm, hp⟩

/-! ## Line-splitting lemmas for the large undecodable file -/

theorem splitSegs_noNewline :
    ∀ l : List Char, '\n' ∉ l → splitSegs l = [l] := by
  intro l
  induction l with
  | nil => intro _; rfl
  | cons c cs ih =>
    intro h
    have hc : ¬c = '\n' := fun hh => h (hh ▸ List.mem_cons_self _ _)
    have hcs : '\n' ∉ cs := fun hh => h (List.mem_cons_of_mem _ hh)
    simp only [splitSegs, if_neg hc, ih hcs]

theorem splitSegs_append_nl :
    ∀ l₁ l₂ : List Char, '\n' ∉ l₁ →
      splitSegs (l₁ ++ '\n' :: l₂) = l₁ :: splitSegs l₂ := by
  intro l₁ l₂
  induction l₁ with
  | nil =>
    intro _
    simp [splitSegs]
  | cons c cs ih =>
    intro h
    have hc : ¬c = '\n' := fun hh => h (hh ▸ List.mem_cons_self _ _)
    have hcs : '\n' ∉ cs := fun hh => h (List.mem_cons_of_mem _ hh)
    simp only [List.cons_append, splitSegs, if_neg hc]
    rw [show (cs.append ('\n' :: l₂)) = cs ++ '\n' :: l₂ from rfl, ih hcs]

theorem badFile_goodText_segs :
    splitSegs badFile.goodText = ["whatever".toList, List.replicate 8300 'a'] := by
  have hrep : '\n' ∉ List.replicate 8300 'a' := by
    intro hmem
    exact absurd (List.mem_replicate.mp hmem).2 (by decide)
  unfold badFile
  rw [splitSegs_append_nl "whatever".toList (List.replicate 8300 'a') (by decide),
    splitSegs_noNewline (List.replicate 8300 'a') hrep]

theorem badFile_readLines : readLinesOf badFile = (["whatever"], true) := by
  have hlines : completeLines badFile.goodText = ["whatever"] := by
    unfold completeLines
    rw [badFile_goodText_segs]
    rfl
  unfold readLinesOf
  rw [show badFile.openable = true from rfl, show badFile.decodable = false from rfl]
  simpa using hlines

theorem badFile_scanResult : scanResult "whatever" badFile = [(1, 0, 8)] := by
  unfold scanResult
  rw [badFile_readLines]
  decide

theorem badFile_goodText_length : badFile.goodText.length = 8309 := by
  show ("whatever".toList ++ '\n' :: List.replicate 8300 'a').length = 8309
  rw [List.length_append, List.length_cons, List.length_replicate]
  decide

theorem badFile_sniffOk : sniffOk badFile = true := by
  unfold sniffOk
  rw [show badFile.openable = true from rfl,
    show badFile.decodable = false from rfl,
    badFile_goodText_length]
  decide

theorem badFile_searchable :
    is_file_searchable defaultConfig ["bad.txt"] badFile = true := by
  unfold is_file_searchable
  rw [show defaultConfig.excludeDirs = [] from rfl,
    show defaultConfig.includeTypes = [] from rfl,
    show defaultConfig.excludeTypes = [] from rfl]
  simpa using badFile_sniffOk

/-! ## Claim theorems -/

/-- C1, counterexample: scanning the line `"aaa"` for the term `"aa"`
does NOT yield matches with start offsets `[0, 1]` — `re.finditer` is
non-overlapping, so the scan resumes at offset 2 after the match at 0. -/
theorem scan_aaa_starts_ne_overlap :
    ¬((searchLines "aa" ["aaa"]).map (fun r => r.2.1) = [0, 1]) := by
  decide

/-- C1, amended: the scanner records the left-to-right NON-overlapping
case-insensitive occurrences of the term: scanning the line `"aaa"`
for `"aa"` yields exactly one match, `(1, 0, 2)`; in general every
recorded start offset is a true case-folded occurrence, and
consecutive recorded starts are at least the term length apart. -/
theorem scan_nonoverlapping_with_aaa :
    searchLines "aa" ["aaa"] = [(1, 0, 2)] ∧
    ∀ term line : String,
      ((finditerStr term line).Chain'
        (fun a b => a + max term.toList.length 1 ≤ b)) ∧
      ∀ p ∈ finditerStr term line, matchesAt term.toList line.toList p = true := by
  refine ⟨by decide, ?_⟩
  intro term line
  exact ⟨finditer_chain _ _, fun p hp => finditer_sound _ _ p hp⟩

/-- Witness for C1's theorem at term `"aa"`, line `"aaa"`, `p = 0`. -/
theorem scan_nonoverlapping_with_aaa_witness :
    (0 : Nat) ∈ finditerStr "aa" "aaa" ∧
    matchesAt "aa".toList "aaa".toList 0 = true :=
  ⟨by decide, (scan_nonoverlapping_with_aaa.2 "aa" "aaa").2 0 (by decide)⟩

/-- C2, counterexample: a read error in the middle of `badFile` (its
invalid bytes come after one complete matching line) does NOT make the
file contribute an empty match sequence — the matches found before the
error are still recorded. -/
theorem midfile_error_records_partial :
    (readLinesOf badFile).2 = true ∧
    search_file "whatever" ["bad.txt"] badFile [] =
      [("bad.txt", [(1, 0, 8)])] := by
  constructor
  · rw [badFile_readLines]
  · unfold search_file
    rw [badFile_scanResult]
    decide

/-- C2, amended: no exception propagates out of the scanner (the model
is total) and the error is logged; on a read error the file
contributes exactly the matches found on the lines read before the
error — in particular, if the error occurs on open, or if no match
precedes it, no entry at all is recorded. -/
theorem read_error_no_matches_no_entry (term : String) (path : FPath)
    (f : SimFile) (d : List (String × List MatchRecord)) :
    (f.openable = false → search_file term path f d = d) ∧
    ((readLinesOf f).2 = true → scanResult term f = [] →
      search_file term path f d = d) := by
  constructor
  · intro hopen
    have h1 : readLinesOf f = ([], true) := by
      unfold readLinesOf
      rw [hopen]
      rfl
    unfold search_file scanResult
    rw [h1]
    rfl
  · intro _ hres
    unfold search_file
    rw [hres]
    rfl

/-- Witness for C2's theorem at an unopenable file. -/
theorem read_error_no_matches_no_entry_witness :
    (SimFile.mk false [] false).openable = false ∧
    search_file "whatever" ["u.txt"] (SimFile.mk false [] false) [] = [] :=
  ⟨rfl,
    (read_error_no_matches_no_entry "whatever" ["u.txt"]
      (SimFile.mk false [] false) []).1 rfl⟩

/-- C3, counterexample: on `a.txt` with lines
`["foo", "whatever bar", "WHATEVER"]` and term `"whatever"`, the
report's positions are NOT `[(2,4,13),(3,0,9)]` (the match in line 2
starts at offset 0, and `len("whatever") = 8`). -/
theorem e2e_report_positions_ne_spec :
    ¬(runPipeline defaultConfig "whatever"
        (fun _ => ⟨true, "foo\nwhatever bar\nWHATEVER".toList, true⟩)
        [["a.txt"]] =
      [("a.txt", 2, [(2, 4, 13), (3, 0, 9)])]) := by
  decide

/-- C3, amended: the produced report has exactly one row, for file
`a.txt`, with `occurrence_count = 2` and positions
`[(2,0,8),(3,0,8)]` (1-based line numbers, 0-based character
offsets). -/
theorem e2e_report_positions :
    runPipeline defaultConfig "whatever"
        (fun _ => ⟨true, "foo\nwhatever bar\nWHATEVER".toList, true⟩)
        [["a.txt"]] =
      [("a.txt", 2, [(2, 0, 8), (3, 0, 8)])] := by
  decide

/-- C5, counterexample: position 1 of line `"aaaa"` carries a true
case-folded occurrence of `"aa"`, yet no match is recorded there
(it overlaps the match recorded at 0), so "recorded exactly when the
case-folded substring equals the term" fails. -/
theorem match_pos_one_not_recorded :
    matchesAt "aa".toList "aaaa".toList 1 = true ∧
    (1 : Nat) ∉ finditerStr "aa" "aaaa" := by
  decide

/-- C5, amended: a match is recorded at `p` only if the term,
compared case-insensitively character by character, equals the line's
substring of the term's length starting at `p`; the converse holds
only for positions that do not overlap an earlier recorded match
(the implementation hands the term to a regex engine, which scans
non-overlapping).  Scanning the line `"Whatever"` for the term
`"whatever"` yields exactly one match with start 0 and end 8. -/
theorem recorded_implies_casefold_match :
    (∀ (term line : String), ∀ p ∈ finditerStr term line,
      matchesAt term.toList line.toList p = true) ∧
    searchLines "whatever" ["Whatever"] = [(1, 0, 8)] := by
  refine ⟨?_, by decide⟩
  intro term line p hp
  exact finditer_sound _ _ p hp

/-- Witness for C5's theorem at term `"whatever"`, line `"Whatever"`,
`p = 0`. -/
theorem recorded_implies_casefold_match_witness :
    (0 : Nat) ∈ finditerStr "whatever" "Whatever" ∧
    matchesAt "whatever".toList "Whatever".toList 0 = true :=
  ⟨by decide,
    recorded_implies_casefold_match.1 "whatever" "Whatever" 0 (by decide)⟩

/-- C4, counterexample: `badFile` contains a byte sequence invalid for
UTF-8, yet it passes `is_file_searchable` (its invalid bytes lie
beyond the sniffed prefix) and, because a matching line precedes the
decode error, it appears in the final report. -/
theorem undecodable_beyond_sniff_in_report :
    badFile.decodable = false ∧
    is_file_searchable defaultConfig ["bad.txt"] badFile = true ∧
    runPipeline defaultConfig "whatever" badContent [["bad.txt"]] =
      [("bad.txt", 1, [(1, 0, 8)])] := by
  have hsf : search_file "whatever" ["bad.txt"] badFile [] =
      [("bad.txt", [(1, 0, 8)])] := by
    unfold search_file
    rw [badFile_scanResult]
    decide
  refine ⟨rfl, badFile_searchable, ?_⟩
  unfold runPipeline filterPhase
  rw [List.filter_cons,
    if_pos (show is_file_searchable defaultConfig ["bad.txt"]
      (badContent ["bad.txt"]) = true from badFile_searchable),
    List.filter_nil, scanPhase_cons, scanPhase_nil,
    show badContent ["bad.txt"] = badFile from rfl, hsf]
  decide

/-- C4, amended: a file whose byte content fails to decode within the
sniffed prefix (fewer than `sniffLimit` decodable characters in
total) is excluded from the searchable set and never appears in the
final report, with no fatal error raised; a file whose invalid bytes
lie beyond the sniffed prefix may pass the filter, and when a match
precedes the decode error it appears in the report. -/
theorem undecodable_within_sniff_excluded (cfg : SearchConfig) (term : String)
    (content : FPath → SimFile) (cands : List FPath) (k : String)
    (h : ∀ q ∈ cands, pathStr q = k →
      (content q).decodable = false ∧ (content q).goodText.length < sniffLimit) :
    (∀ q ∈ cands, pathStr q = k → is_file_searchable cfg q (content q) = false) ∧
    (∀ n ms, (k, n, ms) ∉ runPipeline cfg term content cands) := by
  have hfalse : ∀ q ∈ cands, pathStr q = k →
      is_file_searchable cfg q (content q) = false := by
    intro q hq hk
    obtain ⟨hdec, hlen⟩ := h q hq hk
    have hsniff : sniffOk (content q) = false := by
      unfold sniffOk
      rw [hdec, decide_eq_false (Nat.not_le.mpr hlen)]
      simp
    unfold is_file_searchable
    split
    · rfl
    · split
      · rfl
      · split
        · rfl
        · exact hsniff
  refine ⟨hfalse, ?_⟩
  intro n ms hmem
  unfold runPipeline csvRows at hmem
  rw [List.mem_map] at hmem
  obtain ⟨e, he, heq⟩ := hmem
  have h1 : e.1 = k := congrArg Prod.fst heq
  have hsome := dictLookup_isSome_of_mem _ e he
  have hnok : ∀ q ∈ filterPhase cfg content cands, pathStr q = k →
      scanResult term (content q) = [] := by
    intro q hq hkq
    exfalso
    have hqc := (List.mem_filter.mp hq).1
    have htrue := (List.mem_filter.mp hq).2
    rw [hfalse q hqc hkq] at htrue
    exact absurd htrue (by decide)
  rw [h1, scanPhase_lookup_of_empty term content _ [] k hnok] at hsome
  simp [dictLookup] at hsome

/-- Witness for C4's theorem: a small unopenable-to-decode file
(2 decodable characters, then invalid bytes) is rejected by the
filter and absent from the report. -/
theorem undecodable_within_sniff_excluded_witness :
    (∀ q ∈ [[("b.bin" : String)]], pathStr q = "b.bin" →
      (SimFile.mk true "ab".toList false).decodable = false ∧
      (SimFile.mk true "ab".toList false).goodText.length < sniffLimit) ∧
    is_file_searchable defaultConfig ["b.bin"]
      (SimFile.mk true "ab".toList false) = false ∧
    ("b.bin", 1, ([] : List MatchRecord)) ∉
      runPipeline defaultConfig "t" (fun _ => SimFile.mk true "ab".toList false)
        [["b.bin"]] := by
  have h := undecodable_within_sniff_excluded defaultConfig "t"
    (fun _ => SimFile.mk true "ab".toList false) [["b.bin"]] "b.bin" (by decide)
  exact ⟨by decide, h.1 ["b.bin"] (by decide) (by decide), h.2 1 []⟩

/-- C6: running the scan phase over the same searchable files in any
two orders (worker pools only change the completion order, and every
`record` is one critical section under the lock) produces the same
report content as a set of rows keyed by file path — nothing lost,
nothing duplicated.  The hypothesis `hinj` says that the path string
determines the file content, as on a real filesystem snapshot. -/
theorem scan_order_invariant_report (term : String) (content : FPath → SimFile)
    (l₁ l₂ : List FPath) (hperm : l₁.Perm l₂)
    (hinj : ∀ p ∈ l₁, ∀ q ∈ l₁, pathStr p = pathStr q → content p = content q) :
    (∀ r : ReportRow, r ∈ csvRows (scanPhase term content l₁ []) ↔
      r ∈ csvRows (scanPhase term content l₂ [])) ∧
    (dictKeys (scanPhase term content l₁ [])).Nodup ∧
    (dictKeys (scanPhase term content l₂ [])).Nodup := by
  have hn₁ : (dictKeys (scanPhase term content l₁ [])).Nodup :=
    scanPhase_keys_nodup term content l₁ [] (by simp [dictKeys])
  have hn₂ : (dictKeys (scanPhase term content l₂ [])).Nodup :=
    scanPhase_keys_nodup term content l₂ [] (by simp [dictKeys])
  have hlk : ∀ k, dictLookup (scanPhase term content l₁ []) k =
      dictLookup (scanPhase term content l₂ []) k := by
    intro k
    by_cases hex : ∃ q ∈ l₁, pathStr q = k ∧ scanResult term (content q) ≠ []
    · obtain ⟨q₁, hq₁, hk₁, hne₁, hl₁⟩ :=
        scanPhase_lookup_of_hit term content l₁ [] k hex
      have hex₂ : ∃ q ∈ l₂, pathStr q = k ∧ scanResult term (content q) ≠ [] := by
        obtain ⟨q, hq, hk', hne⟩ := hex
        exact ⟨q, hperm.subset hq, hk', hne⟩
      obtain ⟨q₂, hq₂, hk₂, hne₂, hl₂⟩ :=
        scanPhase_lookup_of_hit term content l₂ [] k hex₂
      rw [hl₁, hl₂,
        hinj q₁ hq₁ q₂ (hperm.symm.subset hq₂) (by rw [hk₁, hk₂])]
    · push_neg at hex
      rw [scanPhase_lookup_of_empty term content l₁ [] k hex,
        scanPhase_lookup_of_empty term content l₂ [] k
          (fun q hq => hex q (hperm.symm.subset hq))]
  refine ⟨?_, hn₁, hn₂⟩
  intro r
  unfold csvRows
  rw [List.mem_map, List.mem_map]
  constructor
  · rintro ⟨e, he, hr⟩
    obtain ⟨k, v⟩ := e
    refine ⟨(k, v), ?_, hr⟩
    rw [mem_dict_iff_dictLookup _ _ _ hn₂, ← hlk k,
      ← mem_dict_iff_dictLookup _ _ _ hn₁]
    exact he
  · rintro ⟨e, he, hr⟩
    obtain ⟨k, v⟩ := e
    refine ⟨(k, v), ?_, hr⟩
    rw [mem_dict_iff_dictLookup _ _ _ hn₁, hlk k,
      ← mem_dict_iff_dictLookup _ _ _ hn₂]
    exact he

/-- Witness for C6's theorem: two files scanned in both orders. -/
theorem scan_order_invariant_report_witness :
    ([["a.txt"], ["b.txt"]] : List FPath).Perm [["b.txt"], ["a.txt"]] ∧
    (("a.txt", 1, [((1 : Nat), (0 : Nat), (8 : Nat))]) ∈
        csvRows (scanPhase "whatever"
          (fun _ => SimFile.mk true "whatever".toList true)
          [["a.txt"], ["b.txt"]] []) ↔
      ("a.txt", 1, [((1 : Nat), (0 : Nat), (8 : Nat))]) ∈
        csvRows (scanPhase "whatever"
          (fun _ => SimFile.mk true "whatever".toList true)
          [["b.txt"], ["a.txt"]] [])) := by
  have h := scan_order_invariant_report "whatever"
    (fun _ => SimFile.mk true "whatever".toList true)
    [["a.txt"], ["b.txt"]] [["b.txt"], ["a.txt"]] (by decide) (by decide)
  exact ⟨by decide, h.1 _⟩

/-- C7: a path lying under (descendant of, by the component-prefix
ancestor test) any configured excluded directory is never searchable,
regardless of its extension or content, and never appears in the
filter-eligible set. -/
theorem excluded_dir_not_searchable (cfg : SearchConfig) (p e : FPath)
    (he : e ∈ cfg.excludeDirs) (hpre : e <+: p) (content : FPath → SimFile)
    (cands : List FPath) :
    is_file_searchable cfg p (content p) = false ∧
    p ∉ filterPhase cfg content cands := by
  have hrel : isRelativeTo p e = true := by
    unfold isRelativeTo
    exact decide_eq_true hpre
  have hany : cfg.excludeDirs.any (fun d => isRelativeTo p d) = true :=
    List.any_eq_true.mpr ⟨e, he, hrel⟩
  have hfalse : is_file_searchable cfg p (content p) = false := by
    unfold is_file_searchable
    rw [if_pos hany]
  refine ⟨hfalse, ?_⟩
  intro hmem
  unfold filterPhase at hmem
  have htrue := (List.mem_filter.mp hmem).2
  rw [hfalse] at htrue
  exact absurd htrue (by decide)

/-- Witness for C7's theorem: `ex/a.txt` under excluded `ex`. -/
theorem excluded_dir_not_searchable_witness :
    (["ex"] : FPath) ∈ (SearchConfig.mk [["ex"]] [] []).excludeDirs ∧
    (["ex"] : FPath) <+: ["ex", "a.txt"] ∧
    is_file_searchable (SearchConfig.mk [["ex"]] [] []) ["ex", "a.txt"]
      (SimFile.mk true [] true) = false ∧
    (["ex", "a.txt"] : FPath) ∉ filterPhase (SearchConfig.mk [["ex"]] [] [])
      (fun _ => SimFile.mk true [] true) [["ex", "a.txt"]] := by
  have h := excluded_dir_not_searchable (SearchConfig.mk [["ex"]] [] [])
    ["ex", "a.txt"] ["ex"] (by decide) (by decide)
    (fun _ => SimFile.mk true [] true) [["ex", "a.txt"]]
  exact ⟨by decide, by decide, h.1, h.2⟩

/-- C8: every match record the scanner produces has line number ≥ 1,
start offset ≥ 0 (a `Nat`), end offset = start + term length, and
end > start (for the non-empty configured term), offsets in
characters of the decoded line. -/
theorem match_record_invariants (term : String) (hterm : 0 < term.length)
    (lines : List String) :
    ∀ r ∈ searchLines term lines,
      1 ≤ r.1 ∧ r.2.2 = r.2.1 + term.length ∧ r.2.1 < r.2.2 := by
  intro r hr
  obtain ⟨n, line, p, _, hrdef, _⟩ := searchLines_shape term lines r hr
  subst hrdef
  exact ⟨Nat.succ_le_succ (Nat.zero_le n), rfl, Nat.lt_add_of_pos_right hterm⟩

/-- Witness for C8's theorem at the configured term `"whatever"`. -/
theorem match_record_invariants_witness :
    0 < "whatever".length ∧
    ((1, 0, 8) : MatchRecord) ∈ searchLines "whatever" ["whatever"] ∧
    (1 ≤ 1 ∧ 8 = 0 + "whatever".length ∧ 0 < 8) :=
  ⟨by decide, by decide,
    match_record_invariants "whatever" (by decide) ["whatever"]
      (1, 0, 8) (by decide)⟩

/-- C9: `record` inserts/overwrites the entry when the match list is
non-empty and does nothing when it is empty; consequently a file-path
string all of whose scans produced zero matches is absent from the
final report, and no report row ever has occurrence count 0. -/
theorem record_contract_zero_match_absent
    (d : List (String × List MatchRecord)) (path : FPath)
    (ms : List MatchRecord) (term : String) (content : FPath → SimFile)
    (l : List FPath) (k : String)
    (hzero : ∀ q ∈ l, pathStr q = k → scanResult term (content q) = []) :
    (ms = [] → record d path ms = d) ∧
    (ms ≠ [] → record d path ms = dictInsert d (pathStr path) ms) ∧
    (∀ n rest, (k, n, rest) ∉ csvRows (scanPhase term content l [])) ∧
    (∀ r ∈ csvRows (scanPhase term content l []), 1 ≤ r.2.1) := by
  refine ⟨?_, ?_, ?_, ?_⟩
  · intro h
    subst h
    rfl
  · intro h
    unfold record
    rw [if_neg (fun hc => h (List.isEmpty_iff.mp hc))]
  · intro n rest hmem
    unfold csvRows at hmem
    rw [List.mem_map] at hmem
    obtain ⟨e, he, heq⟩ := hmem
    have h1 : e.1 = k := congrArg Prod.fst heq
    have hsome := dictLookup_isSome_of_mem _ e he
    rw [h1, scanPhase_lookup_of_empty term content l [] k hzero] at hsome
    simp [dictLookup] at hsome
  · intro r hr
    unfold csvRows at hr
    rw [List.mem_map] at hr
    obtain ⟨e, he, heq⟩ := hr
    have hne := scanPhase_values_ne_nil term content l [] (by simp) e he
    rw [← heq]
    exact List.length_pos.mpr hne

/-- Witness for C9's theorem: empty matches, one zero-match file. -/
theorem record_contract_zero_match_absent_witness :
    (∀ q ∈ [[("a" : String)]], pathStr q = "a" →
      scanResult "t" (SimFile.mk false [] false) = []) ∧
    record [] ["a"] [] = [] ∧
    ("a", 1, ([] : List MatchRecord)) ∉
      csvRows (scanPhase "t" (fun _ => SimFile.mk false [] false) [["a"]] []) := by
  have h := record_contract_zero_match_absent [] ["a"] [] "t"
    (fun _ => SimFile.mk false [] false) [["a"]] "a" (by decide)
  exact ⟨by decide, h.1 rfl, h.2.2.1 1 []⟩

/-- C10: even when the same path occurs several times in the scanned
list, the report has at most one row per file-path string, the
observable content equals that of scanning each path once
(deduplicated), and re-recording the same path with the same matches
overwrites the entry with an equal value. -/
theorem duplicate_scans_single_row (term : String) (content : FPath → SimFile)
    (l : List FPath)
    (hinj : ∀ p ∈ l, ∀ q ∈ l, pathStr p = pathStr q → content p = content q) :
    ((csvRows (scanPhase term content l [])).map (fun r => r.1)).Nodup ∧
    (∀ k, dictLookup (scanPhase term content l []) k =
      dictLookup (scanPhase term content l.dedup []) k) ∧
    (∀ d p ms, record (record d p ms) p ms = record d p ms) := by
  refine ⟨?_, ?_, ?_⟩
  · have hkeys : (csvRows (scanPhase term content l [])).map (fun r => r.1) =
        dictKeys (scanPhase term content l []) := by
      unfold csvRows dictKeys
      rw [List.map_map]
      rfl
    rw [hkeys]
    exact scanPhase_keys_nodup term content l [] (by simp [dictKeys])
  · intro k
    by_cases hex : ∃ q ∈ l, pathStr q = k ∧ scanResult term (content q) ≠ []
    · obtain ⟨q₁, hq₁, hk₁, hne₁, hl₁⟩ :=
        scanPhase_lookup_of_hit term content l [] k hex
      have hex₂ : ∃ q ∈ l.dedup, pathStr q = k ∧
          scanResult term (content q) ≠ [] := by
        obtain ⟨q, hq, hk', hne⟩ := hex
        exact ⟨q, List.mem_dedup.mpr hq, hk', hne⟩
      obtain ⟨q₂, hq₂, hk₂, hne₂, hl₂⟩ :=
        scanPhase_lookup_of_hit term content l.dedup [] k hex₂
      rw [hl₁, hl₂,
        hinj q₁ hq₁ q₂ (List.mem_dedup.mp hq₂) (by rw [hk₁, hk₂])]
    · push_neg at hex
      rw [scanPhase_lookup_of_empty term content l [] k hex,
        scanPhase_lookup_of_empty term content l.dedup [] k
          (fun q hq => hex q (List.mem_dedup.mp hq))]
  · intro d p ms
    by_cases h : ms.isEmpty
    · simp [record, h]
    · simp [record, h, dictInsert_idem]

/-- Witness for C10's theorem: the same file scanned twice. -/
theorem duplicate_scans_single_row_witness :
    (pathStr ["a.txt"] = pathStr ["a.txt"] →
      SimFile.mk true "whatever".toList true = SimFile.mk true "whatever".toList true) ∧
    ((csvRows (scanPhase "whatever"
        (fun _ => SimFile.mk true "whatever".toList true)
        [["a.txt"], ["a.txt"]] [])).map (fun r => r.1)).Nodup := by
  have h := duplicate_scans_single_row "whatever"
    (fun _ => SimFile.mk true "whatever".toList true)
    [["a.txt"], ["a.txt"]] (by decide)
  exact ⟨fun _ => rfl, h.1⟩

end ByteHunter
